import Mathlib

/-!
# Verification of the `medacy` annotation-comparison engine

Shallow embedding of `src/medacy/data/annotations.py` (class `Annotations`).
An entity annotation is a 4-tuple `(label, start, end, text)`; the entity
store of an `Annotations` object is a Python dict mapping identifier strings
(`"T1"`, `"T2"`, ...) to such tuples, embedded here as an insertion-ordered
association list.  Python exceptions are embedded via `Except PyErr`.
The Python `float` leniency parameter is embedded as `ℚ` (all values the code
manipulates with `math.ceil` are exact in the cases of interest), character
offsets are `ℤ` (Python ints).
-/

namespace Medacy

/-- An entity annotation tuple `(label, start, end, text)` as produced by
`Annotations.get_entity_annotations` (source order: label, start, end, text).
`end` is a Lean keyword, so the field is named `end_`. -/
structure Span where
  label : String
  start : ℤ
  end_ : ℤ
  text : String
deriving DecidableEq

/-- The Python exceptions raised by the embedded code paths:
`ValueError` (explicit `raise` statements), `TypeError` (raised by the
interpreter, e.g. for `set - list`) and `KeyError` (dict lookup misses). -/
inductive PyErr where
  | valueError
  | typeError
  | keyError
deriving DecidableEq

instance : DecidableEq (Except PyErr (Finset Span)) := fun a b =>
  match a, b with
  | .ok x, .ok y => decidable_of_iff (x = y) (by simp)
  | .error x, .error y => decidable_of_iff (x = y) (by simp)
  | .ok _, .error _ => isFalse (by simp)
  | .error _, .ok _ => isFalse (by simp)

/-- The tolerance window `ceil(leniency * (end - start))`, computed from the left-hand
span of a comparison (lines 182 and 207 of `annotations.py`). -/
def window (leniency : ℚ) (a : Span) : ℤ :=
  ⌈leniency * ((a.end_ : ℚ) - (a.start : ℚ))⌉

/-- The matching test applied to a left span `a` and a candidate right span
`c` inside the scan loops of `difference` (lines 184-185) and `intersection`
(lines 209-210): equal labels, and the range of `c` contained in the range
of `a` expanded by `window leniency a` on both sides.  The `text` fields are never
consulted. -/
def spanMatch (leniency : ℚ) (a c : Span) : Bool :=
  a.label == c.label &&
    decide (a.start - window leniency a ≤ c.start) &&
    decide (a.end_ + window leniency a ≥ c.end_)

/-- The `matches` set accumulated by the scan loops of both `difference`
(lines 180-187) and `intersection` (lines 205-212), enumerated as a
duplicate-free list: a left span is added exactly when some right span
passes `spanMatch` (the `break` only stops the inner scan early; membership
of the left span is unaffected, and a Python set holds each tuple once). -/
def matchedList (leniency : ℚ) (left right : List Span) : List Span :=
  (left.filter (fun a => right.any (spanMatch leniency a))).dedup

/-- The `matches` set of `difference`/`intersection` as a `Finset`. -/
def matchedSet (leniency : ℚ) (left right : List Span) : Finset Span :=
  (matchedList leniency left right).toFinset

/-- Transcribes `Annotations.difference` (lines 162-189).  Control flow of the source:
`if leniency != 0:` validate `0 <= leniency <= 1` (else `ValueError`) and
fall through to the scan loop; `else:` (i.e. `leniency == 0`) evaluate
`set(self.get_entity_annotations()) - annotations.get_entity_annotations()`.
The right-hand operand of that subtraction is a Python *list* (the return
value of `get_entity_annotations`), and `set.__sub__` does not accept a
list, so the interpreter raises `TypeError` on this path.  (The leading
`isinstance` check is enforced by the Lean types and not modelled.) -/
def difference (left right : List Span) (leniency : ℚ) : Except PyErr (Finset Span) :=
  if leniency ≠ 0 then
    if ¬ (0 ≤ leniency ∧ leniency ≤ 1) then .error .valueError
    else .ok (left.toFinset \ matchedSet leniency left right)
  else .error .typeError

/-- Transcribes `Annotations.intersection` (lines 191-214).  The source validates the
range only when `leniency != 0` and has *no* early return for
`leniency == 0`: every non-erroring call runs the same scan loop, with
`window = ceil(0 * (end-start)) = 0` when leniency is zero. -/
def intersection (left right : List Span) (leniency : ℚ) : Except PyErr (Finset Span) :=
  if leniency ≠ 0 ∧ ¬ (0 ≤ leniency ∧ leniency ≤ 1) then .error .valueError
  else .ok (matchedSet leniency left right)

/-- Geometric interval overlap `max(0, min(end, c_end) - max(c_start, start))`
(line 234 of `annotations.py`). -/
def overlap (a c : Span) : ℤ :=
  max 0 (min a.end_ c.end_ - max c.start a.start)

/-- Python dict assignment `d[k] = v` on an insertion-ordered dictionary with
`Span` keys: overwrite in place if the key is present, else append. -/
def dictSet (d : List (Span × List Span)) (k : Span) (v : List Span) :
    List (Span × List Span) :=
  if d.any (fun p => p.1 == k) then
    d.map (fun p => if p.1 == k then (k, v) else p)
  else d ++ [(k, v)]

/-- Transcribes `Annotations.compute_ambiguity` (lines 216-239).  For each left span and
each right span with a different label and non-zero overlap, the source
executes `ambiguity_dict[left_span] = []` followed by an `append`, i.e. it
(re)binds the key to the one-element list `[c]` — each later overlapping
right span replaces the previous value rather than extending it. -/
def compute_ambiguity (left right : List Span) : List (Span × List Span) :=
  left.foldl (fun d a =>
    right.foldl (fun d c =>
      if a.label == c.label then d
      else if overlap a c ≠ 0 then dictSet d a [c]
      else d) d) []

/-- Transcribes the dict comprehension of line 258, which maps each entity
of `entities` to its enumeration index: for a duplicated label the *last*
index wins.  A missing key raises `KeyError` at lookup time, hence
`Option`. -/
def entity_encoding (entities : List String) (s : String) : Option ℕ :=
  (entities.enum.reverse.find? (fun p => p.2 == s)).map (fun p => p.1)

/-- One increment `confusion_matrix[i][j] += 1` on a matrix embedded as a total function
(out-of-range indices are never written by the embedded code paths). -/
def bumpM (m : ℕ → ℕ → ℕ) (i j : ℕ) : ℕ → ℕ → ℕ :=
  fun a b => if a = i ∧ b = j then m a b + 1 else m a b

/-- A lookup `entity_encoding[s]`: raises `KeyError` when `s` is absent. -/
def encLookup (entities : List String) (s : String) : Except PyErr ℕ :=
  match entity_encoding entities s with
  | some i => .ok i
  | none => .error .keyError

/-- Transcribes `Annotations.compute_confusion_matrix` (lines 241-276): build the label
encoding, compute the ambiguity dict and the intersection, add one
off-diagonal count per ambiguous entry, then one diagonal count per
intersection span.  The intersection set (a Python set, iterated once per
element) is iterated through its duplicate-free enumeration `matchedList`.
`entity_encoding[...]` lookups on labels absent from `entities` raise
`KeyError`. -/
def compute_confusion_matrix (left right : List Span) (entities : List String)
    (leniency : ℚ) : Except PyErr (ℕ → ℕ → ℕ) := do
  let amb := compute_ambiguity left right
  let _inter ← intersection left right leniency
  let m1 ← amb.foldlM (fun m kv =>
    kv.2.foldlM (fun m c => do
      let i ← encLookup entities kv.1.label
      let j ← encLookup entities c.label
      pure (bumpM m i j)) m) (fun _ _ => 0)
  (matchedList leniency left right).foldlM (fun m sp => do
    let i ← encLookup entities sp.label
    pure (bumpM m i i)) m1

/-- Sum of the main diagonal of an `n × n` matrix. -/
def diagSum (m : ℕ → ℕ → ℕ) (n : ℕ) : ℕ :=
  ∑ i in Finset.range n, m i i

/-- Python `dict.update({k: v})` on the insertion-ordered entities
dictionary: overwrite in place if the key is present, else append. -/
def dictUpdate (d : List (String × Span)) (k : String) (v : Span) :
    List (String × Span) :=
  if d.any (fun p => p.1 == k) then
    d.map (fun p => if p.1 == k then (k, v) else p)
  else d ++ [(k, v)]

/-- Transcribes `Annotations.add_entity` (lines 104-114): it updates the
entities dict, binding the key built by formatting T%i with
(current number of entities + 1) — that is, `"T"` followed by the decimal
rendering of that number — to the tuple `(label, start, end, text)`. -/
def add_entity (d : List (String × Span)) (label : String) (s e : ℤ)
    (text : String) : List (String × Span) :=
  dictUpdate d ("T" ++ Nat.repr (d.length + 1)) ⟨label, s, e, text⟩

/-- Invariant of the ambiguity dictionary: every key is a left span and
every span in a value list is a right span with a different label. -/
def AmbOK (left right : List Span) (d : List (Span × List Span)) : Prop :=
  ∀ kv ∈ d, kv.1 ∈ left ∧ ∀ c ∈ kv.2, c ∈ right ∧ c.label ≠ kv.1.label

/-- Numeric value of a decimal digit character. -/
def decChar (c : Char) : ℕ := c.toNat - 48

/-- Decimal value of a digit string, continuing from accumulator `a`. -/
def decListFrom (a : ℕ) (l : List Char) : ℕ :=
  l.foldl (fun a c => 10 * a + decChar c) a

/-! ## Characterization lemmas -/

lemma spanMatch_iff {l : ℚ} {a c : Span} :
    spanMatch l a c = true ↔
      a.label = c.label ∧ a.start - window l a ≤ c.start ∧ c.end_ ≤ a.end_ + window l a := by
  simp [spanMatch, Bool.and_eq_true, beq_iff_eq, ge_iff_le, and_assoc]

lemma mem_matchedSet {l : ℚ} {left right : List Span} {a : Span} :
    a ∈ matchedSet l left right ↔ a ∈ left ∧ ∃ c ∈ right, spanMatch l a c = true := by
  simp [matchedSet, matchedList, List.mem_toFinset, List.mem_dedup, List.mem_filter,
    List.any_eq_true]

lemma intersection_ok {left right : List Span} {l : ℚ} (h0 : 0 ≤ l) (h1 : l ≤ 1) :
    intersection left right l = .ok (matchedSet l left right) := by
  simp [intersection, h0, h1]

lemma difference_ok {left right : List Span} {l : ℚ} (hne : l ≠ 0) (h0 : 0 ≤ l)
    (h1 : l ≤ 1) :
    difference left right l = .ok (left.toFinset \ matchedSet l left right) := by
  simp [difference, hne, h0, h1]

lemma spanMatch_text {l : ℚ} {a c : Span} (t t' : String) :
    spanMatch l ⟨a.label, a.start, a.end_, t⟩ ⟨c.label, c.start, c.end_, t'⟩ =
      spanMatch l a c := by
  simp [spanMatch, window]

/-! ## Claims C1, C2, C3, C4, C5, C7, C9 -/

/-- C1: for spans `a` (left) and `b` (right) and leniency `0 < l ≤ 1`, the
matching predicate that both `difference` and `intersection` apply holds iff
`a.label = b.label ∧ a.start - window ≤ b.start ∧ a.end + window ≥ b.end`
with `window = ⌈l * (a.end - a.start)⌉` computed from the left span only;
the test is directional and the text fields of both spans are ignored. -/
theorem C1_matcher_spec (l : ℚ) (h0 : 0 < l) (h1 : l ≤ 1)
    (left right : List Span) (a b : Span) (t t' : String) :
    (spanMatch l a b = true ↔
      a.label = b.label ∧
        a.start - ⌈l * ((a.end_ : ℚ) - (a.start : ℚ))⌉ ≤ b.start ∧
        a.end_ + ⌈l * ((a.end_ : ℚ) - (a.start : ℚ))⌉ ≥ b.end_) ∧
    spanMatch l ⟨a.label, a.start, a.end_, t⟩ ⟨b.label, b.start, b.end_, t'⟩ =
      spanMatch l a b ∧
    difference left right l = .ok (left.toFinset \ matchedSet l left right) ∧
    intersection left right l = .ok (matchedSet l left right) ∧
    (a ∈ matchedSet l left right ↔ a ∈ left ∧ ∃ c ∈ right, spanMatch l a c = true) := by
  refine ⟨?_, spanMatch_text t t', difference_ok (ne_of_gt h0) (le_of_lt h0) h1,
    intersection_ok (le_of_lt h0) h1, mem_matchedSet⟩
  rw [spanMatch_iff]
  exact Iff.rfl.and (Iff.rfl.and (ge_iff_le (α := ℤ)).symm) |>.symm |>.symm

/-- C1 witness at a concrete instantiation. -/
theorem C1_matcher_spec_witness :
    (spanMatch (1/2) ⟨"Drug", 10, 20, "x"⟩ ⟨"Drug", 6, 24, "y"⟩ = true ↔
      ("Drug" : String) = "Drug" ∧
        (10 : ℤ) - ⌈(1/2 : ℚ) * (((20 : ℤ) : ℚ) - ((10 : ℤ) : ℚ))⌉ ≤ 6 ∧
        (20 : ℤ) + ⌈(1/2 : ℚ) * (((20 : ℤ) : ℚ) - ((10 : ℤ) : ℚ))⌉ ≥ 24) ∧
    spanMatch (1/2) ⟨"Drug", 10, 20, "zz"⟩ ⟨"Drug", 6, 24, "ww"⟩ =
      spanMatch (1/2) ⟨"Drug", 10, 20, "x"⟩ ⟨"Drug", 6, 24, "y"⟩ ∧
    difference [⟨"Drug", 10, 20, "x"⟩] [⟨"Drug", 6, 24, "y"⟩] (1/2) =
      .ok (([⟨"Drug", 10, 20, "x"⟩] : List Span).toFinset \
        matchedSet (1/2) [⟨"Drug", 10, 20, "x"⟩] [⟨"Drug", 6, 24, "y"⟩]) ∧
    intersection [⟨"Drug", 10, 20, "x"⟩] [⟨"Drug", 6, 24, "y"⟩] (1/2) =
      .ok (matchedSet (1/2) [⟨"Drug", 10, 20, "x"⟩] [⟨"Drug", 6, 24, "y"⟩]) ∧
    ((⟨"Drug", 10, 20, "x"⟩ : Span) ∈
        matchedSet (1/2) [⟨"Drug", 10, 20, "x"⟩] [⟨"Drug", 6, 24, "y"⟩] ↔
      (⟨"Drug", 10, 20, "x"⟩ : Span) ∈ [(⟨"Drug", 10, 20, "x"⟩ : Span)] ∧
        ∃ c ∈ [(⟨"Drug", 6, 24, "y"⟩ : Span)],
          spanMatch (1/2) ⟨"Drug", 10, 20, "x"⟩ c = true) :=
  C1_matcher_spec (1/2) (by norm_num) (by norm_num)
    [⟨"Drug", 10, 20, "x"⟩] [⟨"Drug", 6, 24, "y"⟩]
    ⟨"Drug", 10, 20, "x"⟩ ⟨"Drug", 6, 24, "y"⟩ "zz" "ww"

/-- C4 (code bug): at leniency 0, `difference` evaluates
`set(self.get_entity_annotations()) - annotations.get_entity_annotations()`,
a set-minus-list subtraction that raises `TypeError` in Python for *every*
pair of entity sets, instead of returning the documented set difference. -/
theorem C4_difference_zero_raises (left right : List Span) :
    difference left right 0 = .error .typeError := by
  simp [difference]

/-- C2 (code bug): at leniency 0, `intersection` does *not* special-case to
exact 4-tuple equality: it runs the containment scan with window 0, so the
left span `("Drug",5,9,"p")` is matched by the strictly smaller right span
`("Drug",6,8,"q")` although no identical 4-tuple occurs in the right set
(and `difference` at leniency 0 raises `TypeError` rather than performing
the exact-tuple subtraction). -/
theorem C2_zero_not_exact_tuple :
    intersection [⟨"Drug", 5, 9, "p"⟩] [⟨"Drug", 6, 8, "q"⟩] 0 =
      .ok {⟨"Drug", 5, 9, "p"⟩} ∧
    (⟨"Drug", 5, 9, "p"⟩ : Span) ∉ ([⟨"Drug", 6, 8, "q"⟩] : List Span) ∧
    difference [⟨"Drug", 5, 9, "p"⟩] [⟨"Drug", 6, 8, "q"⟩] 0 = .error .typeError := by
  have h : spanMatch 0 ⟨"Drug", 5, 9, "p"⟩ ⟨"Drug", 6, 8, "q"⟩ = true := by
    simp [spanMatch, window]
  refine ⟨?_, by simp, by simp [difference]⟩
  simp [intersection, matchedSet, matchedList, List.filter, h]

/-- C5 (code bug): the zero-leniency partition identity cannot hold because
`difference(A,B,0)` raises `TypeError` on every input; moreover
`intersection(A,B,0)` contains `("Drug",10,20,"x")` although that tuple is
absent from `B`, so even the documented exact-tuple subtraction would not be
disjoint from the intersection. -/
theorem C5_partition_fails :
    difference [⟨"Drug", 10, 20, "x"⟩] [⟨"Drug", 12, 18, "y"⟩] 0 = .error .typeError ∧
    intersection [⟨"Drug", 10, 20, "x"⟩] [⟨"Drug", 12, 18, "y"⟩] 0 =
      .ok {⟨"Drug", 10, 20, "x"⟩} ∧
    (⟨"Drug", 10, 20, "x"⟩ : Span) ∉ ([⟨"Drug", 12, 18, "y"⟩] : List Span) := by
  have h : spanMatch 0 ⟨"Drug", 10, 20, "x"⟩ ⟨"Drug", 12, 18, "y"⟩ = true := by
    simp [spanMatch, window]
  refine ⟨by simp [difference], ?_, by simp⟩
  simp [intersection, matchedSet, matchedList, List.filter, h]

/-- C3 (code bug): `compute_ambiguity` rebinds the value of the key to a fresh
one-element list on every differently-labeled overlapping right span, so
with two such right spans only the *last* one survives in the value list,
although both have a different label and positive overlap. -/
theorem C3_ambiguity_keeps_only_last :
    compute_ambiguity [⟨"Drug", 10, 20, "x"⟩]
        [⟨"Dose", 12, 14, "a"⟩, ⟨"Form", 15, 18, "b"⟩] =
      [(⟨"Drug", 10, 20, "x"⟩, [⟨"Form", 15, 18, "b"⟩])] ∧
    overlap ⟨"Drug", 10, 20, "x"⟩ ⟨"Dose", 12, 14, "a"⟩ = 2 ∧
    overlap ⟨"Drug", 10, 20, "x"⟩ ⟨"Form", 15, 18, "b"⟩ = 3 ∧
    ("Dose" : String) ≠ "Drug" ∧ ("Form" : String) ≠ "Drug" := by
  refine ⟨?_, by decide, by decide, by decide, by decide⟩
  decide

/-- C7 counterexample: at the literal inputs given by the spec the containment
check `10 - 5 ≤ 6` is in fact *true* (5 ≤ 6), and `intersection` does not
return the empty set. -/
theorem C7_counterexample :
    ((10 : ℤ) - 5 ≤ 6) ∧
    intersection [⟨"Drug", 10, 20, "x"⟩] [⟨"Drug", 6, 24, "y"⟩] (1/2) ≠
      .ok (∅ : Finset Span) := by
  have h : spanMatch (2⁻¹ : ℚ) ⟨"Drug", 10, 20, "x"⟩ ⟨"Drug", 6, 24, "y"⟩ = true := by
    simp [spanMatch, window]
    norm_num
  refine ⟨by norm_num, ?_⟩
  rw [intersection_ok (by norm_num) (by norm_num)]
  simp [matchedSet, matchedList, List.filter, h]

/-- C7 amended: with leniency 1/2, window `⌈(1/2)·10⌉ = 5`, both containment
checks `10 - 5 ≤ 6` and `20 + 5 ≥ 24` succeed, the left span *is* matched,
and `intersection` returns the singleton set of the left span. -/
theorem C7_amended_match :
    window (1/2) ⟨"Drug", 10, 20, "x"⟩ = 5 ∧
    ((10 : ℤ) - 5 ≤ 6) ∧ ((20 : ℤ) + 5 ≥ 24) ∧
    intersection [⟨"Drug", 10, 20, "x"⟩] [⟨"Drug", 6, 24, "y"⟩] (1/2) =
      .ok {⟨"Drug", 10, 20, "x"⟩} := by
  have h : spanMatch (2⁻¹ : ℚ) ⟨"Drug", 10, 20, "x"⟩ ⟨"Drug", 6, 24, "y"⟩ = true := by
    simp [spanMatch, window]
    norm_num
  refine ⟨by simp [window]; norm_num, by norm_num, by norm_num, ?_⟩
  rw [intersection_ok (by norm_num) (by norm_num)]
  simp [matchedSet, matchedList, List.filter, h]

/-- C9: a leniency outside `[0,1]` makes both `difference` and
`intersection` raise the range-validation `ValueError` (named
`InvalidArgumentError` in the spec taxonomy) instead of clamping, and a leniency inside `[0,1]`
never triggers that validation error in either operation. -/
theorem C9_leniency_validation (left right : List Span) (l : ℚ) :
    ((l < 0 ∨ 1 < l) →
      difference left right l = .error .valueError ∧
      intersection left right l = .error .valueError) ∧
    (0 ≤ l → l ≤ 1 →
      difference left right l ≠ .error .valueError ∧
      intersection left right l ≠ .error .valueError) := by
  constructor
  · intro hout
    have hne : l ≠ 0 := by rcases hout with h | h <;> [exact ne_of_lt h; exact ne_of_gt (lt_trans one_pos h)]
    have hnotin : ¬ (0 ≤ l ∧ l ≤ 1) := by
      rcases hout with h | h
      · exact fun hc => absurd hc.1 (not_le.mpr h)
      · exact fun hc => absurd hc.2 (not_le.mpr h)
    constructor
    · simp [difference, hne, hnotin]
    · simp [intersection, hne, hnotin]
  · intro h0 h1
    constructor
    · by_cases hne : l = 0
      · simp [difference, hne]
      · rw [difference_ok hne h0 h1]; simp
    · rw [intersection_ok h0 h1]; simp

lemma window_mono {l1 l2 : ℚ} {a : Span} (h12 : l1 ≤ l2) (hwf : a.start ≤ a.end_) :
    window l1 a ≤ window l2 a := by
  apply Int.ceil_le_ceil
  apply mul_le_mul_of_nonneg_right h12
  have h : (a.start : ℚ) ≤ (a.end_ : ℚ) := by exact_mod_cast hwf
  linarith

/-- C6: raising the leniency within `[0,1]` never removes a span from the
intersection result, for entity sets whose spans satisfy the data-model
invariant `start ≤ end`. -/
theorem C6_intersection_monotone (left right : List Span) (l1 l2 : ℚ)
    (h0 : 0 ≤ l1) (h12 : l1 < l2) (h1 : l2 ≤ 1)
    (hwf : ∀ s ∈ left, s.start ≤ s.end_) :
    ∃ S1 S2, intersection left right l1 = .ok S1 ∧
      intersection left right l2 = .ok S2 ∧ S1 ⊆ S2 := by
  refine ⟨_, _, intersection_ok h0 (le_trans h12.le h1),
    intersection_ok (le_trans h0 h12.le) h1, ?_⟩
  intro a ha
  rw [mem_matchedSet] at ha ⊢
  obtain ⟨hal, c, hc, hm⟩ := ha
  refine ⟨hal, c, hc, ?_⟩
  rw [spanMatch_iff] at hm ⊢
  have hw := window_mono h12.le (hwf a hal)
  exact ⟨hm.1, by linarith [hm.2.1], by linarith [hm.2.2]⟩

/-- C6 witness: a concrete instantiation at leniencies `0 < 1/2`. -/
theorem C6_intersection_monotone_witness :
    ∃ S1 S2,
      intersection [⟨"Drug", 10, 20, "x"⟩] [⟨"Drug", 10, 20, "y"⟩] 0 = .ok S1 ∧
      intersection [⟨"Drug", 10, 20, "x"⟩] [⟨"Drug", 10, 20, "y"⟩] (1/2) = .ok S2 ∧
      S1 ⊆ S2 :=
  C6_intersection_monotone [⟨"Drug", 10, 20, "x"⟩] [⟨"Drug", 10, 20, "y"⟩] 0 (1/2)
    (by norm_num) (by norm_num) (by norm_num) (by decide)

/-! ## Lemmas about the label encoding and the confusion matrix -/

lemma okBind {α β : Type} (a : α) (f : α → Except PyErr β) :
    (Except.ok a >>= f) = f a := rfl

lemma encLookup_getElem {entities : List String} {s : String} {i : ℕ}
    (h : encLookup entities s = .ok i) :
    i < entities.length ∧ entities[i]? = some s := by
  unfold encLookup entity_encoding at h
  cases hf : entities.enum.reverse.find? (fun p => p.2 == s) with
  | none => rw [hf] at h; simp at h
  | some p =>
    rw [hf] at h
    replace h : p.1 = i := Except.ok.inj h
    have hp2 : p.2 = s := by
      have := List.find?_some hf
      simpa using this
    have hmem : p ∈ entities.enum := List.mem_reverse.mp (List.mem_of_find?_eq_some hf)
    have hget : entities[p.1]? = some p.2 := by
      have : (p.1, p.2) ∈ entities.enum := by simpa using hmem
      exact List.mk_mem_enum_iff_getElem?.mp this
    rw [h] at hget
    rw [hp2] at hget
    exact ⟨(List.getElem?_eq_some.mp hget).1, hget⟩

lemma encLookup_ok_of_mem {entities : List String} {s : String} (h : s ∈ entities) :
    ∃ i, encLookup entities s = .ok i := by
  unfold encLookup entity_encoding
  cases hf : entities.enum.reverse.find? (fun p => p.2 == s) with
  | some p => exact ⟨p.1, rfl⟩
  | none =>
    exfalso
    obtain ⟨i, hi, hgi⟩ := List.mem_iff_getElem.mp h
    have hmem : (i, s) ∈ entities.enum.reverse := by
      rw [List.mem_reverse]
      exact List.mk_mem_enum_iff_getElem?.mpr (by simp [List.getElem?_eq_some, hi, hgi])
    have := List.find?_eq_none.mp hf (i, s) hmem
    simp at this

lemma encLookup_inj {entities : List String} {s t : String} {i : ℕ}
    (hs : encLookup entities s = .ok i) (ht : encLookup entities t = .ok i) : s = t := by
  have h1 := (encLookup_getElem hs).2
  have h2 := (encLookup_getElem ht).2
  rw [h1] at h2
  exact Option.some_inj.mp h2

lemma diagSum_zero (n : ℕ) : diagSum (fun _ _ => 0) n = 0 := by
  simp [diagSum]

lemma diagSum_bumpM_offdiag {m : ℕ → ℕ → ℕ} {i j : ℕ} (n : ℕ) (hij : i ≠ j) :
    diagSum (bumpM m i j) n = diagSum m n := by
  unfold diagSum
  refine Finset.sum_congr rfl fun a _ => ?_
  have : ¬(a = i ∧ a = j) := fun ⟨h1, h2⟩ => hij (h1 ▸ h2 ▸ rfl)
  simp [bumpM, this]

lemma diagSum_bumpM_diag {m : ℕ → ℕ → ℕ} {i n : ℕ} (hin : i < n) :
    diagSum (bumpM m i i) n = diagSum m n + 1 := by
  unfold diagSum bumpM
  have hsplit : ∀ a, (if a = i ∧ a = i then m a a + 1 else m a a) =
      m a a + (if a = i then 1 else 0) := by
    intro a
    by_cases h : a = i <;> simp [h]
  simp only [hsplit, Finset.sum_add_distrib]
  rw [Finset.sum_ite_eq' (Finset.range n) i (fun _ => 1)]
  simp [Finset.mem_range.mpr hin]

lemma mem_dictSet {d : List (Span × List Span)} {k : Span} {v : List Span}
    {kv : Span × List Span} (h : kv ∈ dictSet d k v) : kv ∈ d ∨ kv = (k, v) := by
  unfold dictSet at h
  by_cases hc : d.any (fun p => p.1 == k)
  · rw [if_pos hc] at h
    obtain ⟨p, hp, hpe⟩ := List.mem_map.mp h
    by_cases hpk : (p.1 == k) = true
    · right; rw [if_pos hpk] at hpe; exact hpe.symm
    · left; rw [if_neg hpk] at hpe; exact hpe ▸ hp
  · rw [if_neg hc] at h
    rcases List.mem_append.mp h with h | h
    · left; exact h
    · right; simpa using h

lemma ambInner_ok {left right : List Span} {a : Span} (ha : a ∈ left) :
    ∀ (rs : List Span) (d : List (Span × List Span)), (∀ c ∈ rs, c ∈ right) →
      AmbOK left right d →
      AmbOK left right (rs.foldl (fun d c =>
        if a.label == c.label then d
        else if overlap a c ≠ 0 then dictSet d a [c]
        else d) d) := by
  intro rs
  induction rs with
  | nil => intro d _ hd; simpa using hd
  | cons c cs ih =>
    intro d hcs hd
    rw [List.foldl_cons]
    apply ih _ (fun x hx => hcs x (List.mem_cons_of_mem _ hx))
    by_cases h1 : (a.label == c.label) = true
    · simpa [h1] using hd
    · by_cases h2 : overlap a c ≠ 0
      · rw [if_neg (by simpa using h1), if_pos h2]
        intro kv hkv
        rcases mem_dictSet hkv with hmem | hkv'
        · exact hd kv hmem
        · subst hkv'
          refine ⟨ha, fun x hx => ?_⟩
          have hx' : x = c := by simpa using hx
          subst hx'
          refine ⟨hcs x (List.mem_cons_self _ _), fun he => h1 ?_⟩
          rw [he]
          exact beq_self_eq_true _
      · rw [if_neg (by simpa using h1), if_neg h2]
        exact hd

lemma ambOuter_ok {left right : List Span} :
    ∀ (ls : List Span) (d : List (Span × List Span)), (∀ a ∈ ls, a ∈ left) →
      AmbOK left right d →
      AmbOK left right (ls.foldl (fun d a =>
        right.foldl (fun d c =>
          if a.label == c.label then d
          else if overlap a c ≠ 0 then dictSet d a [c]
          else d) d) d) := by
  intro ls
  induction ls with
  | nil => intro d _ hd; simpa using hd
  | cons a as ih =>
    intro d hls hd
    rw [List.foldl_cons]
    apply ih _ (fun x hx => hls x (List.mem_cons_of_mem _ hx))
    exact ambInner_ok (hls a (List.mem_cons_self _ _)) right d (fun _ hc => hc) hd

lemma compute_ambiguity_ok (left right : List Span) :
    AmbOK left right (compute_ambiguity left right) := by
  unfold compute_ambiguity
  exact ambOuter_ok left [] (fun _ ha => ha) (by intro kv hkv; simp at hkv)

lemma foldlM_preserve {α : Type} (n : ℕ)
    (g : (ℕ → ℕ → ℕ) → α → Except PyErr (ℕ → ℕ → ℕ)) (P : α → Prop)
    (hstep : ∀ m x, P x → ∃ m', g m x = .ok m' ∧ diagSum m' n = diagSum m n) :
    ∀ (xs : List α) (m : ℕ → ℕ → ℕ), (∀ x ∈ xs, P x) →
      ∃ m1, xs.foldlM g m = .ok m1 ∧ diagSum m1 n = diagSum m n := by
  intro xs
  induction xs with
  | nil => intro m _; exact ⟨m, rfl, rfl⟩
  | cons x xs ih =>
    intro m hxs
    obtain ⟨m', hg, hd⟩ := hstep m x (hxs x (List.mem_cons_self _ _))
    rw [List.foldlM_cons, hg, okBind]
    obtain ⟨m1, hm1, hd1⟩ := ih m' (fun y hy => hxs y (List.mem_cons_of_mem _ hy))
    exact ⟨m1, hm1, hd1.trans hd⟩

lemma foldlM_count {α : Type} (n : ℕ)
    (g : (ℕ → ℕ → ℕ) → α → Except PyErr (ℕ → ℕ → ℕ)) (P : α → Prop)
    (hstep : ∀ m x, P x → ∃ m', g m x = .ok m' ∧ diagSum m' n = diagSum m n + 1) :
    ∀ (xs : List α) (m : ℕ → ℕ → ℕ), (∀ x ∈ xs, P x) →
      ∃ m2, xs.foldlM g m = .ok m2 ∧ diagSum m2 n = diagSum m n + xs.length := by
  intro xs
  induction xs with
  | nil => intro m _; exact ⟨m, rfl, by simp⟩
  | cons x xs ih =>
    intro m hxs
    obtain ⟨m', hg, hd⟩ := hstep m x (hxs x (List.mem_cons_self _ _))
    rw [List.foldlM_cons, hg, okBind]
    obtain ⟨m2, hm2, hd2⟩ := ih m' (fun y hy => hxs y (List.mem_cons_of_mem _ hy))
    refine ⟨m2, hm2, ?_⟩
    rw [hd2, hd, List.length_cons]
    omega

lemma offdiagStage (entities : List String) :
    ∀ (ds : List (Span × List Span)) (m : ℕ → ℕ → ℕ),
      (∀ kv ∈ ds, kv.1.label ∈ entities ∧
        ∀ c ∈ kv.2, c.label ∈ entities ∧ c.label ≠ kv.1.label) →
      ∃ m1, (ds.foldlM (fun m kv => kv.2.foldlM (fun m c => do
          let i ← encLookup entities kv.1.label
          let j ← encLookup entities c.label
          pure (bumpM m i j)) m) m : Except PyErr (ℕ → ℕ → ℕ)) = .ok m1 ∧
        diagSum m1 entities.length = diagSum m entities.length := by
  refine foldlM_preserve entities.length _ _ ?_
  intro m kv hkv
  refine foldlM_preserve entities.length _
    (fun c => c.label ∈ entities ∧ c.label ≠ kv.1.label) ?_ kv.2 m hkv.2
  intro m' c hc
  obtain ⟨i, hi⟩ := encLookup_ok_of_mem hkv.1
  obtain ⟨j, hj⟩ := encLookup_ok_of_mem hc.1
  have hij : i ≠ j := by
    intro he
    exact hc.2 (encLookup_inj hj (by rw [hi, he])).symm.symm
  refine ⟨bumpM m' i j, ?_, diagSum_bumpM_offdiag _ hij⟩
  simp only [hi, hj, okBind, pure_bind]
  rfl

lemma diagStage (entities : List String) :
    ∀ (L : List Span) (m : ℕ → ℕ → ℕ), (∀ sp ∈ L, sp.label ∈ entities) →
      ∃ m2, (L.foldlM (fun m sp => do
          let i ← encLookup entities sp.label
          pure (bumpM m i i)) m : Except PyErr (ℕ → ℕ → ℕ)) = .ok m2 ∧
        diagSum m2 entities.length = diagSum m entities.length + L.length := by
  refine foldlM_count entities.length _ _ ?_
  intro m sp hsp
  obtain ⟨i, hi⟩ := encLookup_ok_of_mem hsp
  have hin : i < entities.length := (encLookup_getElem hi).1
  refine ⟨bumpM m i i, ?_, diagSum_bumpM_diag hin⟩
  simp only [hi, okBind, pure_bind]
  rfl

lemma matchedList_subset_left {l : ℚ} {left right : List Span} {a : Span}
    (h : a ∈ matchedList l left right) : a ∈ left := by
  unfold matchedList at h
  exact (List.mem_filter.mp (List.mem_dedup.mp h)).1

lemma matchedSet_card {l : ℚ} {left right : List Span} :
    (matchedSet l left right).card = (matchedList l left right).length := by
  unfold matchedSet
  exact List.toFinset_card_of_nodup (List.nodup_dedup _)

/-- C8: when every involved label occurs in the vocabulary, the confusion
matrix computation succeeds, every intersection span increments exactly one
diagonal cell (the off-diagonal ambiguity increments never touch the
diagonal), and the sum of the diagonal entries equals — in particular is at
most — the size of `intersection(left, right, leniency)`. -/
theorem C8_confusion_diagonal (left right : List Span) (entities : List String)
    (l : ℚ) (h0 : 0 ≤ l) (h1 : l ≤ 1)
    (hL : ∀ s ∈ left, s.label ∈ entities) (hR : ∀ s ∈ right, s.label ∈ entities) :
    ∃ m S, compute_confusion_matrix left right entities l = .ok m ∧
      intersection left right l = .ok S ∧
      diagSum m entities.length = S.card ∧
      diagSum m entities.length ≤ S.card := by
  have hamb := compute_ambiguity_ok left right
  obtain ⟨m1, hm1, hd1⟩ := offdiagStage entities
    (compute_ambiguity left right) (fun _ _ => 0)
    (fun kv hkv => ⟨hL _ (hamb kv hkv).1,
      fun c hc => ⟨hR _ ((hamb kv hkv).2 c hc).1, ((hamb kv hkv).2 c hc).2⟩⟩)
  obtain ⟨m2, hm2, hd2⟩ := diagStage entities (matchedList l left right) m1
    (fun sp hsp => hL _ (matchedList_subset_left hsp))
  have hcard : diagSum m2 entities.length = (matchedSet l left right).card := by
    rw [hd2, hd1, diagSum_zero, matchedSet_card]
    omega
  refine ⟨m2, matchedSet l left right, ?_, intersection_ok h0 h1, hcard, le_of_eq hcard⟩
  unfold compute_confusion_matrix
  rw [intersection_ok h0 h1, okBind, hm1, okBind, hm2]

/-- C8 witness: one matching span over the one-label vocabulary `["Drug"]`. -/
theorem C8_confusion_diagonal_witness :
    ∃ m S, compute_confusion_matrix [⟨"Drug", 10, 20, "x"⟩] [⟨"Drug", 10, 20, "y"⟩]
        ["Drug"] 0 = .ok m ∧
      intersection [⟨"Drug", 10, 20, "x"⟩] [⟨"Drug", 10, 20, "y"⟩] 0 = .ok S ∧
      diagSum m (["Drug"] : List String).length = S.card ∧
      diagSum m (["Drug"] : List String).length ≤ S.card :=
  C8_confusion_diagonal [⟨"Drug", 10, 20, "x"⟩] [⟨"Drug", 10, 20, "y"⟩] ["Drug"] 0
    (by norm_num) (by norm_num) (by decide) (by decide)

/-! ## Decimal rendering of identifiers (format T%i) -/

lemma decListFrom_cons (a : ℕ) (c : Char) (l : List Char) :
    decListFrom a (c :: l) = decListFrom (10 * a + decChar c) l := rfl

lemma decChar_digitChar {d : ℕ} (h : d < 10) : decChar (Nat.digitChar d) = d := by
  interval_cases d <;> rfl

lemma toDigitsCore_dec :
    ∀ (fuel n : ℕ) (ds : List Char), n < fuel →
      decListFrom 0 (Nat.toDigitsCore 10 fuel n ds) = decListFrom n ds := by
  intro fuel
  induction fuel with
  | zero => intro n ds h; exact absurd h (Nat.not_lt_zero n)
  | succ fuel ih =>
    intro n ds h
    by_cases hn : n / 10 = 0
    · have h10 : n < 10 := by omega
      simp only [Nat.toDigitsCore, hn, if_pos]
      rw [decListFrom_cons, decChar_digitChar (by omega)]
      congr 1
      omega
    · have hfuel : n / 10 < fuel := by omega
      simp only [Nat.toDigitsCore, hn, if_neg, ite_false]
      rw [ih (n / 10) (Nat.digitChar (n % 10) :: ds) hfuel]
      rw [decListFrom_cons, decChar_digitChar (by omega)]
      congr 1
      omega

lemma decListFrom_toDigits (n : ℕ) : decListFrom 0 (Nat.toDigits 10 n) = n := by
  have h := toDigitsCore_dec (n + 1) n [] (Nat.lt_succ_self n)
  simpa [Nat.toDigits, decListFrom] using h

lemma Nat_repr_inj {m n : ℕ} (h : Nat.repr m = Nat.repr n) : m = n := by
  have hm := decListFrom_toDigits m
  have hn := decListFrom_toDigits n
  have hd : (Nat.repr m).data = (Nat.repr n).data := by rw [h]
  have hm' : (Nat.repr m).data = Nat.toDigits 10 m := rfl
  have hn' : (Nat.repr n).data = Nat.toDigits 10 n := rfl
  rw [hm', hn'] at hd
  rw [← hm, ← hn, hd]

lemma tkey_inj {m n : ℕ} (h : "T" ++ Nat.repr m = "T" ++ Nat.repr n) : m = n := by
  apply Nat_repr_inj
  apply String.ext
  have hd := congrArg String.data h
  simpa [String.data_append] using hd

/-- C10: `add_entity` computes the new identifier as `"T"` followed by
(current number of entities + 1); when the existing identifiers are exactly
`T1..Tn` the new key is fresh so the entry is appended and the entity count
grows by one, but on a non-contiguous store such as `{"T2": ...}` the
computed identifier `T2` collides with an existing key, the entry is
silently overwritten, and the entity count does not grow. -/
theorem C10_add_entity_ids (n : ℕ) (d : List (String × Span)) (lab : String)
    (s e : ℤ) (t : String)
    (hkeys : d.map Prod.fst = (List.range n).map (fun i => "T" ++ Nat.repr (i + 1))) :
    add_entity d lab s e t =
      dictUpdate d ("T" ++ Nat.repr (d.length + 1)) ⟨lab, s, e, t⟩ ∧
    add_entity d lab s e t =
      d ++ [("T" ++ Nat.repr (d.length + 1), ⟨lab, s, e, t⟩)] ∧
    (add_entity d lab s e t).length = d.length + 1 ∧
    add_entity [("T2", ⟨"A", 0, 1, "u"⟩)] lab s e t = [("T2", ⟨lab, s, e, t⟩)] ∧
    (add_entity [("T2", ⟨"A", 0, 1, "u"⟩)] lab s e t).length = 1 := by
  have hlen : d.length = n := by
    have := congrArg List.length hkeys
    simpa using this
  have hfresh : ∀ p ∈ d, ¬ (p.1 == ("T" ++ Nat.repr (d.length + 1))) = true := by
    intro p hp hbeq
    have hpk : p.1 = "T" ++ Nat.repr (d.length + 1) := by simpa using hbeq
    have hpmem : p.1 ∈ d.map Prod.fst := List.mem_map_of_mem _ hp
    rw [hkeys] at hpmem
    obtain ⟨i, hi, hie⟩ := List.mem_map.mp hpmem
    have hin : i < n := List.mem_range.mp hi
    have : i + 1 = d.length + 1 := tkey_inj (by rw [hie, hpk])
    omega
  have hany : (d.any fun p => p.1 == ("T" ++ Nat.repr (d.length + 1))) = false := by
    rw [List.any_eq_false]
    exact hfresh
  have happend : add_entity d lab s e t =
      d ++ [("T" ++ Nat.repr (d.length + 1), ⟨lab, s, e, t⟩)] := by
    unfold add_entity dictUpdate
    rw [if_neg (by rw [hany]; exact Bool.false_ne_true)]
  have hkey2 : ("T" ++ Nat.repr (1 + 1)) = "T2" := rfl
  have hcollide : add_entity [("T2", ⟨"A", 0, 1, "u"⟩)] lab s e t =
      [("T2", ⟨lab, s, e, t⟩)] := by
    unfold add_entity dictUpdate
    simp [hkey2]
  refine ⟨rfl, happend, by rw [happend]; simp, hcollide, by rw [hcollide]; rfl⟩

/-- C10 witness: a contiguous store `T1, T2` grows to length 3; the
non-contiguous store `{"T2": ...}` is overwritten in place. -/
theorem C10_add_entity_ids_witness :
    add_entity [("T1", ⟨"A", 0, 1, "a"⟩), ("T2", ⟨"B", 2, 3, "b"⟩)] "C" 4 5 "c" =
      dictUpdate [("T1", ⟨"A", 0, 1, "a"⟩), ("T2", ⟨"B", 2, 3, "b"⟩)]
        ("T" ++ Nat.repr ([("T1", (⟨"A", 0, 1, "a"⟩ : Span)),
          ("T2", ⟨"B", 2, 3, "b"⟩)].length + 1)) ⟨"C", 4, 5, "c"⟩ ∧
    add_entity [("T1", ⟨"A", 0, 1, "a"⟩), ("T2", ⟨"B", 2, 3, "b"⟩)] "C" 4 5 "c" =
      [("T1", ⟨"A", 0, 1, "a"⟩), ("T2", ⟨"B", 2, 3, "b"⟩)] ++
        [("T" ++ Nat.repr ([("T1", (⟨"A", 0, 1, "a"⟩ : Span)),
          ("T2", ⟨"B", 2, 3, "b"⟩)].length + 1), ⟨"C", 4, 5, "c"⟩)] ∧
    (add_entity [("T1", ⟨"A", 0, 1, "a"⟩), ("T2", ⟨"B", 2, 3, "b"⟩)] "C" 4 5 "c").length =
      [("T1", (⟨"A", 0, 1, "a"⟩ : Span)), ("T2", ⟨"B", 2, 3, "b"⟩)].length + 1 ∧
    add_entity [("T2", ⟨"A", 0, 1, "u"⟩)] "C" 4 5 "c" = [("T2", ⟨"C", 4, 5, "c"⟩)] ∧
    (add_entity [("T2", ⟨"A", 0, 1, "u"⟩)] "C" 4 5 "c").length = 1 :=
  C10_add_entity_ids 2 [("T1", ⟨"A", 0, 1, "a"⟩), ("T2", ⟨"B", 2, 3, "b"⟩)]
    "C" 4 5 "c" (by decide)

/-- C9 witness: the out-of-range case at leniency 2 and the in-range case at
leniency 1/2, for empty entity sets. -/
theorem C9_leniency_validation_witness :
    (difference [] [] 2 = .error .valueError ∧
      intersection [] [] 2 = .error .valueError) ∧
    (difference [] [] (1/2) ≠ .error .valueError ∧
      intersection [] [] (1/2) ≠ .error .valueError) :=
  ⟨(C9_leniency_validation [] [] 2).1 (Or.inr (by norm_num)),
   (C9_leniency_validation [] [] (1/2)).2 (by norm_num) (by norm_num)⟩

end Medacy
